import Mathlib

/-!
Shallow embedding of the alert ingestion, normalization and geofiltering
pipeline of the weather server (file `server.js`, alerts section), together
with its TTL response cache.  Strings are modelled as `List Char`; JS numbers
are modelled as `ℚ` (exact rationals; the concrete inputs used in the theorems
below are all exactly representable in binary64, and no overflow to Infinity
occurs on them, so the rational model agrees with the double-precision code on
those inputs).  Times are `ℤ` milliseconds.
-/

namespace Newapp

/-- ASCII fragment of the JS whitespace class `\s`, also used by `trim`. -/
def wsChar (c : Char) : Bool := c.isWhitespace

/-- Model of `String.prototype.trim`. -/
def jsTrim (s : List Char) : List Char :=
  ((s.dropWhile wsChar).reverse.dropWhile wsChar).reverse

/-- Model of `String.prototype.toUpperCase` (ASCII). -/
def toUpperL (s : List Char) : List Char := s.map Char.toUpper

/-- Model of JS `s.split(sep)` for a single separator character. -/
def splitChar (sep : Char) : List Char → List (List Char)
  | [] => [[]]
  | c :: r =>
    let rest := splitChar sep r
    if c = sep then [] :: rest
    else
      match rest with
      | t :: ts => (c :: t) :: ts
      | [] => [[c]]

/-- Length of `dropWhile` never exceeds the length of the input. -/
theorem dropWhile_length_le (p : Char → Bool) (l : List Char) :
    (l.dropWhile p).length ≤ l.length := by
  induction l with
  | nil => simp [List.dropWhile]
  | cons c r ih =>
    by_cases h : p c
    · simp only [List.dropWhile, h]
      exact Nat.le_succ_of_le ih
    · simp [List.dropWhile, h]

/-- Model of JS `s.split(re)` where `re` is a character class with `+`:
splits at every maximal run of separator characters, keeping the (possibly
empty) pieces before the first run and after the last run, and returning
`[[]]` for the empty string, exactly as `String.prototype.split` does. -/
def jsSplitRuns (p : Char → Bool) (s : List Char) : List (List Char) :=
  let piece := s.takeWhile (fun c => !p c)
  let rest := s.dropWhile (fun c => !p c)
  match h : rest with
  | [] => [piece]
  | _ :: r => piece :: jsSplitRuns p (r.dropWhile p)
termination_by s.length
decreasing_by
  have h1 : rest.length ≤ s.length := dropWhile_length_le _ s
  rw [h] at h1
  have h2 : (r.dropWhile p).length ≤ r.length := dropWhile_length_le p r
  simp only [List.length_cons] at h1
  omega

/-- Numeric value of an ASCII digit. -/
def digitVal (c : Char) : ℕ := c.toNat - 48

/-- Value of a digit string read in base 10. -/
def digitsToNat (ds : List Char) : ℕ := ds.foldl (fun a c => 10 * a + digitVal c) 0

/-- Model of `parseFloat(s)` followed by the caller's `Number.isFinite` check:
`some q` when `parseFloat` yields a finite number of value `q`, and `none` when
it yields `NaN` or an infinity (leading whitespace skipped, optional sign,
`Infinity` literal, decimal digits with optional fraction and exponent, longest
valid prefix, trailing garbage ignored).  Values are exact rationals rather
than doubles; the inputs used below round-trip exactly. -/
def parseFloatFinite (s : List Char) : Option ℚ :=
  let cs := s.dropWhile wsChar
  let signAndRest : ℚ × List Char :=
    match cs with
    | '+' :: r => (1, r)
    | '-' :: r => (-1, r)
    | r => (1, r)
  let sign := signAndRest.1
  let cs := signAndRest.2
  if ("Infinity".data).isPrefixOf cs then none
  else
    let ip := cs.takeWhile Char.isDigit
    let cs1 := cs.dropWhile Char.isDigit
    let fracAndRest : List Char × List Char :=
      match cs1 with
      | '.' :: r => (r.takeWhile Char.isDigit, r.dropWhile Char.isDigit)
      | r => ([], r)
    let fp := fracAndRest.1
    let cs2 := fracAndRest.2
    if ip = [] ∧ fp = [] then none
    else
      let mant : ℚ := (digitsToNat ip : ℚ) + (digitsToNat fp : ℚ) / ((10 : ℚ) ^ fp.length)
      let exp : ℤ :=
        match cs2 with
        | c :: r =>
          if c = 'e' ∨ c = 'E' then
            let esAndRest : ℤ × List Char :=
              match r with
              | '+' :: t => (1, t)
              | '-' :: t => (-1, t)
              | t => (1, t)
            let ed := esAndRest.2.takeWhile Char.isDigit
            if ed = [] then 0 else esAndRest.1 * (digitsToNat ed : ℤ)
          else 0
        | [] => 0
      some (if 0 ≤ exp then sign * mant * (10 : ℚ) ^ exp.toNat
            else sign * mant / (10 : ℚ) ^ (-exp).toNat)

/-- Model of the token mapper inside `parsePolygon`: JS
`const [la, lo] = p.split(','); Number.isFinite(lat) && Number.isFinite(lon) ?
[lat, lon] : null` (a missing second component behaves like `NaN`). -/
def parseLatLonTok (t : List Char) : Option (ℚ × ℚ) :=
  let parts := splitChar ',' t
  let la := parts.getD 0 []
  match parts.drop 1 with
  | [] => none
  | lo :: _ =>
    match parseFloatFinite la, parseFloatFinite lo with
    | some a, some b => some (a, b)
    | _, _ => none

/-- Model of `parsePolygon(str)` from `server.js`: trim, split on whitespace
runs, parse each token as a comma-separated pair of finite numbers dropping
failures, and require at least 3 surviving points. -/
def parsePolygon (s : List Char) : Option (List (ℚ × ℚ)) :=
  if s = [] then none
  else
    let pts := (jsSplitRuns wsChar (jsTrim s)).filterMap parseLatLonTok
    if 3 ≤ pts.length then some pts else none

/-- Model of `pointInPolygon(lat, lon, poly)` from `server.js`: ray casting
over the vertex list, with the JS `((yj - yi) || 1e-12)` guard against a zero
denominator.  Polygon points are `(lat, lon)` pairs. -/
def pointInPolygon (lat lon : ℚ) (poly : List (ℚ × ℚ)) : Bool :=
  if poly.length < 3 then false
  else
    (List.range poly.length).foldl
      (fun inside i =>
        let j := if i = 0 then poly.length - 1 else i - 1
        let pti := poly.getD i (0, 0)
        let ptj := poly.getD j (0, 0)
        let xi := pti.2
        let yi := pti.1
        let xj := ptj.2
        let yj := ptj.1
        let den := if yj - yi = 0 then (1 : ℚ) / 1000000000000 else yj - yi
        let intersect :=
          ((decide (yi > lat)) != (decide (yj > lat))) &&
            decide (lon < (xj - xi) * (lat - yi) / den + xi)
        if intersect then !inside else inside)
      false

/-- Case-insensitive literal match of `pat` against a prefix of `s` (the `i`
flag of the regexes in `parseAtom`); returns the rest of `s` on success. -/
def matchCI : List Char → List Char → Option (List Char)
  | [], s => some s
  | _ :: _, [] => none
  | p :: ps, c :: cs => if p.toLower = c.toLower then matchCI ps cs else none

/-- A successful `matchCI` consumes exactly the pattern length. -/
theorem matchCI_length (pat : List Char) :
    ∀ s r, matchCI pat s = some r → pat.length + r.length = s.length := by
  induction pat with
  | nil =>
    intro s r h
    simp [matchCI] at h
    simp [h]
  | cons p ps ih =>
    intro s r h
    cases s with
    | nil => simp [matchCI] at h
    | cons c cs =>
      simp only [matchCI] at h
      by_cases hc : p.toLower = c.toLower
      · simp only [hc, if_pos rfl] at h
        have := ih cs r h
        simp [List.length_cons]
        omega
      · simp [hc] at h

/-- The JS word-character class `[a-zA-Z0-9_]`. -/
def wordChar (c : Char) : Bool := c.isAlpha || c.isDigit || c = '_'

/-- After the tag name inside an opening tag: `[^>]*>` — skip to the first
`>` and consume it. -/
def matchOpenCore (tag rest : List Char) : Option (List Char) :=
  match matchCI tag rest with
  | none => none
  | some r1 =>
    match r1.dropWhile (fun c => !(c = '>')) with
    | '>' :: r2 => some r2
    | _ => none

/-- The opening-tag pattern of the `get` helper in `parseAtom`:
`<(?:[a-zA-Z0-9_]+:)?TAG[^>]*>` tried at the head of `s`; the optional
namespace prefix is attempted first, exactly as the regex engine does. -/
def matchOpen (tag s : List Char) : Option (List Char) :=
  match s with
  | '<' :: r =>
    let run := r.takeWhile wordChar
    let afterRun := r.dropWhile wordChar
    let withPrefix : Option (List Char) :=
      match afterRun with
      | ':' :: r2 => if run = [] then none else matchOpenCore tag r2
      | _ => none
    match withPrefix with
    | some x => some x
    | none => matchOpenCore tag r
  | _ => none

/-- After the tag name inside a closing tag: a literal `>`. -/
def matchCloseCore (tag rest : List Char) : Option (List Char) :=
  match matchCI tag rest with
  | some ('>' :: r) => some r
  | _ => none

/-- The closing-tag pattern of the `get` helper:
`</(?:[a-zA-Z0-9_]+:)?TAG>` tried at the head of `s`. -/
def matchClose (tag s : List Char) : Option (List Char) :=
  match s with
  | '<' :: '/' :: r =>
    let run := r.takeWhile wordChar
    let afterRun := r.dropWhile wordChar
    let withPrefix : Option (List Char) :=
      match afterRun with
      | ':' :: r2 => if run = [] then none else matchCloseCore tag r2
      | _ => none
    match withPrefix with
    | some x => some x
    | none => matchCloseCore tag r
  | _ => none

/-- The lazy group `([\s\S]*?)` of the `get` helper: the shortest chunk of
characters before a closing tag, or `none` when no closing tag follows. -/
def scanGroup (tag : List Char) : List Char → Option (List Char)
  | [] => none
  | c :: r =>
    if (matchClose tag (c :: r)).isSome then some []
    else (scanGroup tag r).map (fun g => c :: g)

/-- Leftmost-first search of the whole `get` regex over the entry block:
returns the first captured group, scanning start positions left to right. -/
def extractTag (tag : List Char) : List Char → Option (List Char)
  | [] => none
  | c :: r =>
    match matchOpen tag (c :: r) with
    | some afterOpen =>
      match scanGroup tag afterOpen with
      | some g => some g
      | none => extractTag tag r
    | none => extractTag tag r

/-- The character class `[CDATA\\[(.*?)\\]` of the (mis-escaped) CDATA
replace regex `/<!\\[CDATA\\[(.*?)\\]\\]>/g` in the source: inside a regex
literal, `\\` matches a literal backslash, so `[CDATA\\[(.*?)\\]` is a
character class over these eleven characters, not the text `[CDATA[`. -/
def brokenCdataClassChar (c : Char) : Bool :=
  c = 'C' || c = 'D' || c = 'A' || c = 'T' || c = '\\' || c = '[' ||
    c = '(' || c = '.' || c = '*' || c = '?' || c = ')'

/-- The global replace `m[1].replace(/<!\\[CDATA\\[(.*?)\\]\\]>/g, '$1')` as
the regex literal actually behaves: the pattern is `<!` + backslash + one
class character + backslash + `]` + `>`, and since the regex has no capture
group, a match is replaced by the literal text `$1`. -/
def replaceBrokenCdata : List Char → List Char
  | [] => []
  | '<' :: '!' :: '\\' :: c :: '\\' :: ']' :: '>' :: r =>
    if brokenCdataClassChar c then '$' :: '1' :: replaceBrokenCdata r
    else '<' :: replaceBrokenCdata ('!' :: '\\' :: c :: '\\' :: ']' :: '>' :: r)
  | c :: r => c :: replaceBrokenCdata r

/-- The `get(tag)` helper of `parseAtom`: first regex match of the tag pair,
CDATA replace as written, trim; `none` when the tag pair is not found. -/
def getField (tag : List Char) (b : List Char) : Option (List Char) :=
  (extractTag tag b).map (fun m => jsTrim (replaceBrokenCdata m))

/-- JS `String.prototype.search` against a pattern that needs at least one
character, as an index option (`-1` becomes `none`). -/
def searchIdx (p : List Char → Bool) : List Char → Option ℕ
  | [] => none
  | c :: r => if p (c :: r) then some 0 else (searchIdx p r).map (· + 1)

/-- The pattern `/<valueName>\s*NAME\s*<\/valueName>/i` tried at the head of
`s`. -/
def matchValueNameAt (name : List Char) (s : List Char) : Bool :=
  match matchCI "<valueName>".data s with
  | some r =>
    match matchCI name (r.dropWhile wsChar) with
    | some r2 => (matchCI "</valueName>".data (r2.dropWhile wsChar)).isSome
    | none => false
  | none => false

/-- The lazy group of `/<value>([\s\S]*?)<\/value>/gi`: shortest prefix before
a closing literal, returning the group and the rest after the close. -/
def lazyUntil (closeTag : List Char) : List Char → Option (List Char × List Char)
  | [] => none
  | c :: r =>
    match matchCI closeTag (c :: r) with
    | some rest => some ([], rest)
    | none => (lazyUntil closeTag r).map (fun p => (c :: p.1, p.2))

/-- A successful `lazyUntil` with a non-empty close pattern strictly shrinks
the input. -/
theorem lazyUntil_rest_lt (ct : List Char) (hct : 0 < ct.length) :
    ∀ s g rest, lazyUntil ct s = some (g, rest) → rest.length < s.length := by
  intro s
  induction s with
  | nil => intro g rest h; simp [lazyUntil] at h
  | cons c r ih =>
    intro g rest h
    simp only [lazyUntil] at h
    cases hm : matchCI ct (c :: r) with
    | some rest1 =>
      rw [hm] at h
      have hlen := matchCI_length ct _ _ hm
      simp only [Option.some.injEq, Prod.mk.injEq] at h
      obtain ⟨hg, hrest⟩ := h
      subst hrest
      simp only [List.length_cons] at hlen ⊢
      omega
    | none =>
      rw [hm] at h
      cases hl : lazyUntil ct r with
      | none => rw [hl] at h; simp at h
      | some p =>
        rw [hl] at h
        simp at h
        obtain ⟨hg, hrest⟩ := h
        subst hrest
        have := ih p.1 p.2 (by rw [hl])
        simp only [List.length_cons]
        omega

/-- `[...seg.matchAll(/<value>([\s\S]*?)<\/value>/gi)].map(m => m[1])`:
all captured groups, scanning left to right and resuming after each full
match. -/
def matchAllValues (s : List Char) : List (List Char) :=
  match s with
  | [] => []
  | c :: r =>
    match h1 : matchCI "<value>".data (c :: r) with
    | some afterOpen =>
      match h2 : lazyUntil "</value>".data afterOpen with
      | some gr => gr.1 :: matchAllValues gr.2
      | none => matchAllValues r
    | none => matchAllValues r
termination_by s.length
decreasing_by
  · have e1 := matchCI_length _ _ _ h1
    have e2 := lazyUntil_rest_lt "</value>".data (by decide) _ _ _ h2
    simp only [List.length_cons] at e1 ⊢
    omega
  · simp
  · simp

/-- The separator class `[\s,;]` of the code splitter. -/
def delimChar (c : Char) : Bool := c.isWhitespace || c = ',' || c = ';'

/-- Per-`<value>` code extraction: `v.split(/[\s,;]+/g)`, then for each piece
trim (and upper-case for UGC) and keep it only when non-empty (truthy). -/
def codesOfValue (upper : Bool) (v : List Char) : List (List Char) :=
  (jsSplitRuns delimChar v).filterMap (fun code =>
    let c := if upper then toUpperL (jsTrim code) else jsTrim code
    if c = [] then none else some c)

/-- The value-block location inside one `<geocode>` block for a given
`valueName`, exactly as the source computes it: `search` for the value-name
pattern, slice from that index, `search` again for `/<valueName>/i` in the
slice (which also matches the value-name element the slice starts with), and
cut only when that second index is positive. -/
def geocodeValues (name : List Char) (g : List Char) : List (List Char) :=
  match searchIdx (matchValueNameAt name) g with
  | none => []
  | some idx =>
    let after := g.drop idx
    let seg :=
      match searchIdx (fun s => (matchCI "<valueName>".data s).isSome) after with
      | some stop => if 0 < stop then after.take stop else after
      | none => after
    matchAllValues seg

/-- UGC codes collected from one geocode block. -/
def ugcFromGeocode (g : List Char) : List (List Char) :=
  ((geocodeValues "UGC".data g).map (codesOfValue true)).flatten

/-- FIPS6 codes collected from one geocode block (no upper-casing). -/
def fips6FromGeocode (g : List Char) : List (List Char) :=
  ((geocodeValues "FIPS6".data g).map (codesOfValue false)).flatten

/-- Model of JS `hay.includes(needle)`. -/
def containsSub (needle : List Char) (hay : List Char) : Bool :=
  match hay with
  | [] => needle.isPrefixOf ([] : List Char)
  | _ :: r => needle.isPrefixOf hay || containsSub needle r

/-- A parsed Atom entry, with the exact field set pushed by `parseAtom`. -/
structure AlertEntry where
  id : Option (List Char)
  title : Option (List Char)
  summary : Option (List Char)
  updated : Option (List Char)
  effective : Option (List Char)
  expires : Option (List Char)
  areaDesc : Option (List Char)
  severity : Option (List Char)
  event : Option (List Char)
  link : Option (List Char)
  ugc : List (List Char)
  fips6 : List (List Char)
  polygon : Option (List (ℚ × ℚ))
deriving DecidableEq, Repr

/-- All-null entry, used to build concrete test inputs. -/
def blankEntry : AlertEntry :=
  ⟨none, none, none, none, none, none, none, none, none, none, [], [], none⟩

/-- The `fullName` lookup of the alerts endpoint (state is already
upper-cased): GA, AL, FL, SC, NC map to their full names, all else to null. -/
def fullName (state : List Char) : Option (List Char) :=
  if state = "GA".data then some "GEORGIA".data
  else if state = "AL".data then some "ALABAMA".data
  else if state = "FL".data then some "FLORIDA".data
  else if state = "SC".data then some "SOUTH CAROLINA".data
  else if state = "NC".data then some "NORTH CAROLINA".data
  else none

/-- The filter predicate of the state filter in `/api/alerts`: a UGC code
starting with the state code, or the upper-cased concatenation
`areaDesc + " " + summary + " " + title` containing one of the bounded-token
forms, or the full state name. -/
def stateMatch (state : List Char) (e : AlertEntry) : Bool :=
  e.ugc.any (fun code => state.isPrefixOf code) ||
    (let hay :=
      toUpperL ((e.areaDesc.getD []) ++ ' ' :: (e.summary.getD []) ++ ' ' :: (e.title.getD []))
    containsSub (' ' :: state) hay || containsSub ('(' :: (state ++ [')'])) hay ||
      containsSub (state ++ ['-']) hay || containsSub (state ++ [',']) hay ||
      (match fullName state with
       | some n => containsSub n hay
       | none => false))

/-- The state filter step of `/api/alerts`, including the fallback: when the
requested state is truthy and not the sentinel ALL, filter by `stateMatch`;
if the filter result is empty, revert to the input list. -/
def applyStateFilter (state : List Char) (items : List AlertEntry) : List AlertEntry :=
  if state ≠ [] ∧ state ≠ "ALL".data then
    let filtered := items.filter (stateMatch state)
    if filtered.length = 0 then items else filtered
  else items

/-- The polygon-hit predicate of `/api/alerts`:
`Array.isArray(i.polygon) && pointInPolygon(lat, lon, i.polygon)`. -/
def polyHit (lat lon : ℚ) (e : AlertEntry) : Bool :=
  match e.polygon with
  | some p => pointInPolygon lat lon p
  | none => false

/-- The polygon filter step of `/api/alerts`: keep the subset of entries whose
polygon contains the point when that subset is non-empty, else keep the input
list unchanged. -/
def applyPolyFilter (lat lon : ℚ) (items : List AlertEntry) : List AlertEntry :=
  let polyHits := items.filter (polyHit lat lon)
  if 0 < polyHits.length then polyHits else items

/-- One step of the dedup loop of `/api/alerts`:
`if (it?.id && !byId.has(it.id)) byId.set(it.id, it)`; a JS `Map` keeps
insertion order, modelled by an association list extended at the back.  Note
the truthiness test: an empty-string id is skipped just like a null one. -/
def dedupStep (acc : List (List Char × AlertEntry)) (it : AlertEntry) :
    List (List Char × AlertEntry) :=
  match it.id with
  | some i =>
    if i = [] then acc
    else if acc.any (fun p => p.1 == i) then acc
    else acc ++ [(i, it)]
  | none => acc

/-- The dedup pass of `/api/alerts`: `Array.from(byId.values())` after
inserting every merged entry. -/
def dedupById (merged : List AlertEntry) : List AlertEntry :=
  (merged.foldl dedupStep []).map Prod.snd

/-- The response payload fields of `/api/alerts` governed by the cap:
`items = items.slice(0, 50)` and `count = items.length`. -/
structure AlertsData where
  count : ℕ
  items : List AlertEntry
deriving DecidableEq, Repr

/-- The final cap step of `/api/alerts`. -/
def finalizeAlerts (working : List AlertEntry) : AlertsData :=
  let items := working.take 50
  { count := items.length, items := items }

/-- The whole post-merge pipeline of `/api/alerts`: dedup, state filter with
fallback, polygon filter, cap. -/
def aggregate (state : List Char) (lat lon : ℚ) (merged : List AlertEntry) : AlertsData :=
  finalizeAlerts (applyPolyFilter lat lon (applyStateFilter state (dedupById merged)))

/-- A cache slot: `{ data, expiresAt }`. -/
structure CacheEntry (α : Type) where
  data : α
  expiresAt : ℤ
deriving DecidableEq, Repr

/-- The in-memory cache, a JS `Map` from string keys to slots, modelled as an
insertion-ordered association list. -/
abbrev Cache (α : Type) : Type := List (List Char × CacheEntry α)

/-- JS `Map.prototype.get`. -/
def cacheGet {α : Type} : Cache α → List Char → Option (CacheEntry α)
  | [], _ => none
  | (k1, e) :: rest, k => if k1 = k then some e else cacheGet rest k

/-- JS `Map.prototype.set`: overwrite in place, else append. -/
def cacheSet {α : Type} : Cache α → List Char → CacheEntry α → Cache α
  | [], k, e => [(k, e)]
  | (k1, e1) :: rest, k, e =>
    if k1 = k then (k, e) :: rest else (k1, e1) :: cacheSet rest k e

/-- The cache read pattern shared by every handler:
`const entry = cache.get(key); if (entry && entry.expiresAt > now) return entry.data;`
returning `none` on a miss. -/
def cacheRead {α : Type} (c : Cache α) (k : List Char) (now : ℤ) : Option α :=
  match cacheGet c k with
  | some e => if e.expiresAt > now then some e.data else none
  | none => none

/-- `ALERTS_TTL_MS = 2 * 60 * 1000`. -/
def ALERTS_TTL_MS : ℤ := 2 * 60 * 1000

/-- The cache interaction of `/api/alerts` around one request: read the cache
only when `nocache` is unset; on a fresh fetch, write the result back only
when `nocache` is unset (`if (!nocache) cache.set(...)`).  Returns the served
payload and the cache state after the request. -/
def alertsRequest (nocache : Bool) (c : Cache AlertsData) (key : List Char)
    (now : ℤ) (fresh : AlertsData) : AlertsData × Cache AlertsData :=
  if nocache = false then
    match cacheGet c key with
    | some e =>
      if e.expiresAt > now then (e.data, c)
      else (fresh, cacheSet c key ⟨fresh, now + ALERTS_TTL_MS⟩)
    | none => (fresh, cacheSet c key ⟨fresh, now + ALERTS_TTL_MS⟩)
  else (fresh, c)

/-- Sample payloads used by concrete cache theorems. -/
def sampleData0 : AlertsData := ⟨0, []⟩

/-- A second, distinct sample payload. -/
def sampleData1 : AlertsData := ⟨1, [blankEntry]⟩

/-- C9: for the square polygon [[0,0],[0,10],[10,10],[10,0]], pointInPolygon
returns true at (5,5), false at (20,20), and the definite boolean true at the
on-edge point (0,5) (the function is pure, so every call returns this same
value and nothing is thrown); any list of fewer than 3 points yields false. -/
theorem C9_point_in_polygon :
    pointInPolygon 5 5 [(0, 0), (0, 10), (10, 10), (10, 0)] = true ∧
    pointInPolygon 20 20 [(0, 0), (0, 10), (10, 10), (10, 0)] = false ∧
    pointInPolygon 0 5 [(0, 0), (0, 10), (10, 10), (10, 0)] = true ∧
    (∀ (lat lon : ℚ) (poly : List (ℚ × ℚ)), poly.length < 3 →
      pointInPolygon lat lon poly = false) := by
  refine ⟨by with_unfolding_all rfl, by with_unfolding_all rfl,
    by with_unfolding_all rfl, ?_⟩
  intro lat lon poly h
  simp [pointInPolygon, h]

/-- Witness for C9: the degenerate two-point polygon yields false. -/
theorem C9_point_in_polygon_witness :
    pointInPolygon 1 1 [(0, 0), (0, 10)] = false :=
  C9_point_in_polygon.2.2.2 1 1 [(0, 0), (0, 10)] (by decide)

/-- C10: parsePolygon splits on whitespace into comma tokens, drops tokens
that do not parse as two finite numbers, and returns the surviving points only
when at least 3 remain, else none; on "1,2 3,x 5,6" only 2 valid points
survive, so the result is none. -/
theorem C10_parse_polygon :
    parsePolygon "1,2 3,x 5,6".data = none ∧
    ((jsSplitRuns wsChar (jsTrim "1,2 3,x 5,6".data)).filterMap parseLatLonTok).length = 2 ∧
    (∀ s pts, parsePolygon s = some pts →
      pts = (jsSplitRuns wsChar (jsTrim s)).filterMap parseLatLonTok ∧ 3 ≤ pts.length) ∧
    (∀ s, ((jsSplitRuns wsChar (jsTrim s)).filterMap parseLatLonTok).length < 3 →
      parsePolygon s = none) := by
  refine ⟨by with_unfolding_all rfl, by with_unfolding_all rfl, ?_, ?_⟩
  · intro s pts h
    by_cases hs : s = []
    · simp [parsePolygon, hs] at h
    · simp only [parsePolygon, if_neg hs] at h
      by_cases hl : 3 ≤ ((jsSplitRuns wsChar (jsTrim s)).filterMap parseLatLonTok).length
      · rw [if_pos hl] at h
        obtain rfl := Option.some.inj h
        exact ⟨rfl, hl⟩
      · rw [if_neg hl] at h
        exact absurd h (by simp)
  · intro s hl
    by_cases hs : s = []
    · simp [parsePolygon, hs]
    · simp only [parsePolygon, if_neg hs]
      rw [if_neg (by omega)]

/-- Witness for C10: a polygon string with only two valid tokens parses to
none, via the general under-3 clause. -/
theorem C10_parse_polygon_witness : parsePolygon "1,2 3,4".data = none :=
  C10_parse_polygon.2.2.2 "1,2 3,4".data (by with_unfolding_all decide)

/-- C1: when the requested state is not the sentinel ALL and the state filter
matches no entry, the working list reverts to the full input list, so the
result is never empty merely because the heuristic matched nothing. -/
theorem C1_state_filter_fallback (state : List Char) (items : List AlertEntry)
    (hstate : state ≠ "ALL".data)
    (hnone : ∀ e ∈ items, stateMatch state e = false) :
    applyStateFilter state items = items := by
  unfold applyStateFilter
  by_cases hempty : state = []
  · simp [hempty]
  · rw [if_pos ⟨hempty, hstate⟩]
    have hfil : items.filter (stateMatch state) = [] := by
      rw [List.filter_eq_nil_iff]
      intro e he
      simp [hnone e he]
    simp [hfil]

/-- Five concrete entries, none of which matches the state GA. -/
def fiveNonGaEntries : List AlertEntry :=
  [{ blankEntry with
      id := some "a1".data
      title := some "Flood Watch 1".data
      ugc := ["TXZ001".data] },
   { blankEntry with
      id := some "a2".data
      title := some "Flood Watch 2".data
      ugc := ["TXZ002".data] },
   { blankEntry with
      id := some "a3".data
      summary := some "Heavy rain in Texas".data },
   { blankEntry with
      id := some "a4".data
      areaDesc := some "Travis County".data },
   { blankEntry with
      id := some "a5".data
      title := some "Wind Advisory".data
      ugc := ["OKZ077".data] }]

/-- Witness for C1: filtering the five non-matching entries for GA yields the
original five entries. -/
theorem C1_state_filter_fallback_witness :
    applyStateFilter "GA".data fiveNonGaEntries = fiveNonGaEntries :=
  C1_state_filter_fallback "GA".data fiveNonGaEntries (by decide) (by decide)

/-- C2: the polygon filter replaces the working list with the subset of
entries whose polygon contains the query point when that subset is non-empty,
and leaves the working list completely unchanged when it is empty; its output
is always drawn from the input list. -/
theorem C2_polygon_filter (lat lon : ℚ) (items : List AlertEntry) :
    (items.filter (polyHit lat lon) ≠ [] →
      applyPolyFilter lat lon items = items.filter (polyHit lat lon)) ∧
    (items.filter (polyHit lat lon) = [] →
      applyPolyFilter lat lon items = items) ∧
    (∀ e ∈ applyPolyFilter lat lon items, e ∈ items) := by
  unfold applyPolyFilter
  refine ⟨?_, ?_, ?_⟩
  · intro hne
    rw [if_pos (by simpa [List.length_pos] using hne)]
  · intro he
    rw [he]
    simp
  · intro e he
    by_cases hp : 0 < (items.filter (polyHit lat lon)).length
    · rw [if_pos hp] at he
      exact List.mem_of_mem_filter he
    · rwa [if_neg hp] at he

/-- An entry whose polygon is the standard square. -/
def squareEntry : AlertEntry :=
  { blankEntry with
      id := some "sq".data
      polygon := some [(0, 0), (0, 10), (10, 10), (10, 0)] }

/-- An entry with no polygon. -/
def noPolyEntry : AlertEntry := { blankEntry with id := some "np".data }

/-- Witness for C2: with the point (5,5), the square entry is a hit and the
filter replaces the two-entry working list by the hit subset. -/
theorem C2_polygon_filter_witness :
    applyPolyFilter 5 5 [squareEntry, noPolyEntry] =
      [squareEntry, noPolyEntry].filter (polyHit 5 5) :=
  (C2_polygon_filter 5 5 [squareEntry, noPolyEntry]).1
    (by with_unfolding_all decide)

/-- C3 counterexample: with nocache set, the handler does NOT write the fresh
result back (the source guards the write with `if (!nocache)`): starting from
an empty cache, a nocache request leaves the cache empty, and a subsequent
request without nocache is served a newly fetched value, not the earlier
fresh result — the claim says the first result should have been cached. -/
theorem C3_counterexample :
    (alertsRequest true [] "k".data 0 sampleData0).2 = ([] : Cache AlertsData) ∧
    (alertsRequest false (alertsRequest true [] "k".data 0 sampleData0).2
        "k".data 1 sampleData1).1 = sampleData1 ∧
    sampleData1 ≠ sampleData0 := by decide

/-- C3 amended: a nocache request bypasses the cache read AND the cache
write — it returns the freshly fetched payload and leaves the cache exactly
as it was, even when a valid cached entry exists. -/
theorem C3_nocache_request (c : Cache AlertsData) (key : List Char) (now : ℤ)
    (fresh : AlertsData) :
    alertsRequest true c key now fresh = (fresh, c) := by
  unfold alertsRequest
  simp

/-- C7: the emitted payload is the first-50 prefix of the final working list
in dedup-then-filter order with no re-sorting, its length is at most 50, and
count equals the emitted length; a working list of 80 entries caps to 50. -/
theorem C7_result_cap :
    (∀ (state : List Char) (lat lon : ℚ) (merged : List AlertEntry),
      (aggregate state lat lon merged).items =
        (applyPolyFilter lat lon (applyStateFilter state (dedupById merged))).take 50 ∧
      (aggregate state lat lon merged).items.length ≤ 50 ∧
      (aggregate state lat lon merged).count =
        (aggregate state lat lon merged).items.length) ∧
    (∀ working : List AlertEntry, working.length = 80 →
      (finalizeAlerts working).items.length = 50 ∧ (finalizeAlerts working).count = 50) := by
  constructor
  · intro state lat lon merged
    refine ⟨rfl, ?_, rfl⟩
    simp only [aggregate, finalizeAlerts, List.length_take]
    exact Nat.min_le_left _ _
  · intro working h
    simp [finalizeAlerts, List.length_take, h]

/-- Witness for C7: eighty blank entries cap to fifty. -/
theorem C7_result_cap_witness :
    (finalizeAlerts (List.replicate 80 blankEntry)).items.length = 50 ∧
    (finalizeAlerts (List.replicate 80 blankEntry)).count = 50 :=
  C7_result_cap.2 (List.replicate 80 blankEntry) (by simp)

/-- After `cacheSet c k e`, getting `k` returns exactly the new slot. -/
theorem cacheGet_set_self {α : Type} (c : Cache α) (k : List Char) (e : CacheEntry α) :
    cacheGet (cacheSet c k e) k = some e := by
  induction c with
  | nil => simp [cacheSet, cacheGet]
  | cons p rest ih =>
    obtain ⟨k1, e1⟩ := p
    by_cases h : k1 = k
    · simp [cacheSet, cacheGet, h]
    · simp [cacheSet, cacheGet, h, ih]

/-- A read on a key whose get returns a slot reduces to the expiry test. -/
theorem cacheRead_of_get_some {α : Type} {c : Cache α} {k : List Char}
    {e : CacheEntry α} (h : cacheGet c k = some e) (now : ℤ) :
    cacheRead c k now = if e.expiresAt > now then some e.data else none := by
  unfold cacheRead
  rw [h]

/-- A read on an absent key is a miss. -/
theorem cacheRead_of_get_none {α : Type} {c : Cache α} {k : List Char}
    (h : cacheGet c k = none) (now : ℤ) : cacheRead c k now = none := by
  unfold cacheRead
  rw [h]

/-- C8 counterexample: at the exact expiry instant (`now = expiresAt`) the
read is a miss even though the key is present and `now > expiresAt` is false,
refuting "a miss occurs exactly when the key is absent or now is strictly
greater than expiresAt". -/
theorem C8_counterexample :
    cacheGet ([("k".data, ⟨(0 : ℕ), 1000⟩)] : Cache ℕ) "k".data ≠ none ∧
    ¬ ((1000 : ℤ) > 1000) ∧
    cacheRead ([("k".data, ⟨(0 : ℕ), 1000⟩)] : Cache ℕ) "k".data 1000 = none := by
  decide

/-- C8 amended: a read is a miss exactly when the key is absent or
`now ≥ expiresAt` (non-strict at the boundary); otherwise it returns the
stored value; a set followed by an immediate get (positive ttl) returns the
stored value, and a get after time passes the expiry is a miss. -/
theorem C8_cache_semantics :
    (∀ (α : Type) (c : Cache α) (k : List Char) (now : ℤ),
      cacheRead c k now = none ↔
        cacheGet c k = none ∨ ∃ e, cacheGet c k = some e ∧ e.expiresAt ≤ now) ∧
    (∀ (α : Type) (c : Cache α) (k : List Char) (e : CacheEntry α) (now : ℤ),
      cacheGet c k = some e → now < e.expiresAt → cacheRead c k now = some e.data) ∧
    (∀ (α : Type) (c : Cache α) (k : List Char) (v : α) (now ttl : ℤ), 0 < ttl →
      cacheRead (cacheSet c k ⟨v, now + ttl⟩) k now = some v) ∧
    (∀ (α : Type) (c : Cache α) (k : List Char) (v : α) (now ttl tLater : ℤ),
      now + ttl < tLater →
      cacheRead (cacheSet c k ⟨v, now + ttl⟩) k tLater = none) := by
  refine ⟨?_, ?_, ?_, ?_⟩
  · intro α c k now
    cases hget : cacheGet c k with
    | none => simp [cacheRead_of_get_none hget, hget]
    | some e =>
      rw [cacheRead_of_get_some hget]
      by_cases hx : e.expiresAt > now
      · rw [if_pos hx]
        simp only [reduceCtorEq, false_iff, not_or]
        refine ⟨by simp, ?_⟩
        rintro ⟨e2, he2, hle⟩
        obtain rfl := Option.some.inj he2
        omega
      · rw [if_neg hx]
        simp only [true_iff]
        exact Or.inr ⟨e, rfl, by omega⟩
  · intro α c k e now hget hlt
    rw [cacheRead_of_get_some hget, if_pos (by omega)]
  · intro α c k v now ttl httl
    rw [cacheRead_of_get_some (cacheGet_set_self c k ⟨v, now + ttl⟩),
      if_pos (by simp only [gt_iff_lt]; omega)]
  · intro α c k v now ttl tLater hlt
    rw [cacheRead_of_get_some (cacheGet_set_self c k ⟨v, now + ttl⟩),
      if_neg (by simp only [gt_iff_lt]; omega)]

/-- Witness for C8 (amended): set then immediate get returns the value; a get
past expiry is a miss. -/
theorem C8_cache_semantics_witness :
    cacheRead (cacheSet ([] : Cache ℕ) "k".data ⟨7, (0 : ℤ) + 1000⟩) "k".data 0 = some 7 ∧
    cacheRead (cacheSet ([] : Cache ℕ) "k".data ⟨7, (0 : ℤ) + 1000⟩) "k".data 1500 = none :=
  ⟨C8_cache_semantics.2.2.1 ℕ [] "k".data 7 0 1000 (by decide),
   C8_cache_semantics.2.2.2 ℕ [] "k".data 7 0 1000 1500 (by decide)⟩

/-- C4: the CDATA wrapper is NOT stripped — the replace regex
`/<!\\[CDATA\\[(.*?)\\]\\]>/g` is written with string-style double escapes
inside a regex literal, so it matches literal backslashes that never occur in
a real CDATA section; `get('summary')` on a CDATA-wrapped summary returns the
wrapper text verbatim, not the inner text the spec requires.  The not-found
half of the claim does hold: a missing tag pair resolves to null. -/
theorem C4_cdata_not_stripped :
    getField "summary".data
        "<entry><summary><![CDATA[text]]></summary></entry>".data
      = some "<![CDATA[text]]>".data ∧
    getField "summary".data
        "<entry><summary><![CDATA[text]]></summary></entry>".data
      ≠ some "text".data ∧
    getField "event".data
        "<entry><summary><![CDATA[text]]></summary></entry>".data = none := by
  refine ⟨by with_unfolding_all rfl, ?_, by with_unfolding_all rfl⟩
  intro h
  rw [show getField "summary".data
        "<entry><summary><![CDATA[text]]></summary></entry>".data
      = some "<![CDATA[text]]>".data from by with_unfolding_all rfl] at h
  exact absurd (Option.some.inj h) (by decide)

/-- C5: the claim's own concrete example does hold (values under UGC are
split on whitespace/commas/semicolons and upper-cased), but the collection
does NOT stop at the next valueName element: `after.search(/<valueName>/i)`
is evaluated on the slice that starts at the UGC valueName itself, so it
returns 0, the `stop > 0` cut never fires, and the values of every later
value-name group in the same geocode block (here FIPS6) leak into ugc. -/
theorem C5_geocode_ugc :
    ugcFromGeocode
        "<geocode><valueName>UGC</valueName><value>GAZ001</value><value>GAZ002 GAZ003</value></geocode>".data
      = ["GAZ001".data, "GAZ002".data, "GAZ003".data] ∧
    ugcFromGeocode
        "<geocode><valueName>UGC</valueName><value>GAZ001</value><valueName>FIPS6</valueName><value>13001</value></geocode>".data
      = ["GAZ001".data, "13001".data] := by
  exact ⟨by with_unfolding_all rfl, by with_unfolding_all rfl⟩

/-- `any` over a mapped list tests the composite predicate. -/
theorem any_map_gen {α β : Type} (f : α → β) (p : β → Bool) (l : List α) :
    (l.map f).any p = l.any (fun x => p (f x)) := by
  induction l with
  | nil => rfl
  | cons x r ih => simp [ih]

/-- Structured form of the dedup fold, used only in proofs: process entries
in order, carrying the list of already-inserted ids. -/
def dedupGo (seen : List (List Char)) : List AlertEntry → List (List Char × AlertEntry)
  | [] => []
  | it :: rest =>
    match it.id with
    | none => dedupGo seen rest
    | some i =>
      if i = [] then dedupGo seen rest
      else if seen.any (fun k => k == i) then dedupGo seen rest
      else (i, it) :: dedupGo (seen ++ [i]) rest

/-- The dedup fold equals the structured recursion, for any accumulator. -/
theorem foldl_dedupStep_eq (l : List AlertEntry) :
    ∀ acc : List (List Char × AlertEntry),
      l.foldl dedupStep acc = acc ++ dedupGo (acc.map Prod.fst) l := by
  induction l with
  | nil => intro acc; simp [dedupGo]
  | cons it rest ih =>
    intro acc
    rw [List.foldl_cons, ih]
    cases hid : it.id with
    | none =>
      have hstep : dedupStep acc it = acc := by simp only [dedupStep, hid]
      have hgo : dedupGo (acc.map Prod.fst) (it :: rest) =
          dedupGo (acc.map Prod.fst) rest := by
        simp only [dedupGo, hid]
      rw [hstep, hgo]
    | some i =>
      by_cases hi : i = []
      · have hstep : dedupStep acc it = acc := by
          simp only [dedupStep, hid]
          rw [if_pos hi]
        have hgo : dedupGo (acc.map Prod.fst) (it :: rest) =
            dedupGo (acc.map Prod.fst) rest := by
          simp only [dedupGo, hid]
          rw [if_pos hi]
        rw [hstep, hgo]
      · have hany : acc.any (fun p => p.1 == i) =
            (acc.map Prod.fst).any (fun k => k == i) := by
          rw [any_map_gen]
        by_cases hmem : (acc.map Prod.fst).any (fun k => k == i) = true
        · have hstep : dedupStep acc it = acc := by
            simp only [dedupStep, hid]
            rw [if_neg hi, if_pos (hany.trans hmem)]
          have hgo : dedupGo (acc.map Prod.fst) (it :: rest) =
              dedupGo (acc.map Prod.fst) rest := by
            simp only [dedupGo, hid]
            rw [if_neg hi, if_pos hmem]
          rw [hstep, hgo]
        · have hmem2 : acc.any (fun p => p.1 == i) ≠ true := by
            rw [hany]; exact hmem
          have hstep : dedupStep acc it = acc ++ [(i, it)] := by
            simp only [dedupStep, hid]
            rw [if_neg hi, if_neg hmem2]
          have hgo : dedupGo (acc.map Prod.fst) (it :: rest) =
              (i, it) :: dedupGo (acc.map Prod.fst ++ [i]) rest := by
            simp only [dedupGo, hid]
            rw [if_neg hi, if_neg hmem]
          rw [hstep, hgo]
          simp [List.map_append]

/-- Every pair produced by the structured dedup has a non-empty id equal to
its key, with a key not previously seen. -/
theorem dedupGo_mem (l : List AlertEntry) :
    ∀ seen p, p ∈ dedupGo seen l →
      p.2.id = some p.1 ∧ p.1 ≠ [] ∧ seen.any (fun k => k == p.1) = false := by
  induction l with
  | nil => intro seen p h; simp [dedupGo] at h
  | cons it rest ih =>
    intro seen p h
    cases hid : it.id with
    | none =>
      simp only [dedupGo, hid] at h
      exact ih seen p h
    | some i =>
      simp only [dedupGo, hid] at h
      by_cases hi : i = []
      · rw [if_pos hi] at h; exact ih seen p h
      · rw [if_neg hi] at h
        by_cases hmem : seen.any (fun k => k == i) = true
        · rw [if_pos hmem] at h; exact ih seen p h
        · rw [if_neg hmem] at h
          rcases List.mem_cons.mp h with hp | hp
          · subst hp
            exact ⟨hid, hi, Bool.eq_false_iff.mpr hmem⟩
          · have := ih (seen ++ [i]) p hp
            refine ⟨this.1, this.2.1, ?_⟩
            have happ := this.2.2
            rw [List.any_append] at happ
            simpa using (Bool.or_eq_false_iff.mp happ).1

/-- The structured dedup keeps, for a never-seen non-empty id, exactly the
first entry of the list carrying that id. -/
theorem dedupGo_filter_first (l : List AlertEntry) :
    ∀ seen i e, i ≠ [] → seen.any (fun k => k == i) = false →
      l.find? (fun x => x.id == some i) = some e →
      (dedupGo seen l).filter (fun p => p.1 == i) = [(i, e)] := by
  induction l with
  | nil => intro seen i e hi hseen hfind; simp at hfind
  | cons it rest ih =>
    intro seen i e hi hseen hfind
    by_cases hmatch : (it.id == some i) = true
    · simp only [List.find?, hmatch] at hfind
      obtain rfl := Option.some.inj hfind
      have hid : it.id = some i := by simpa using hmatch
      simp only [dedupGo, hid]
      rw [if_neg hi, if_neg (by rw [hseen]; simp)]
      rw [List.filter_cons_of_pos (by simp)]
      have hrest : (dedupGo (seen ++ [i]) rest).filter (fun p => p.1 == i) = [] := by
        rw [List.filter_eq_nil_iff]
        intro p hp
        have hmem := (dedupGo_mem rest (seen ++ [i]) p hp).2.2
        rw [List.any_append] at hmem
        have : (i == p.1) = false := by
          simpa using (Bool.or_eq_false_iff.mp hmem).2
        simp only [beq_eq_false_iff_ne, ne_eq] at this
        simp [beq_eq_false_iff_ne, Ne.symm this]
      rw [hrest]
    · have hm2 : (it.id == some i) = false := by
        simpa using hmatch
      have hfind2 : rest.find? (fun x => x.id == some i) = some e := by
        simpa only [List.find?, hm2] using hfind
      cases hid : it.id with
      | none =>
        simp only [dedupGo, hid]
        exact ih seen i e hi hseen hfind2
      | some j =>
        simp only [dedupGo, hid]
        by_cases hj : j = []
        · rw [if_pos hj]; exact ih seen i e hi hseen hfind2
        · rw [if_neg hj]
          by_cases hjs : seen.any (fun k => k == j) = true
          · rw [if_pos hjs]; exact ih seen i e hi hseen hfind2
          · rw [if_neg hjs]
            have hji : (j == i) = false := by
              rw [beq_eq_false_iff_ne]
              intro hcontra
              apply hmatch
              rw [hid, hcontra]
              simp
            rw [List.filter_cons_of_neg (by simp [hji])]
            apply ih (seen ++ [j]) i e hi ?_ hfind2
            rw [List.any_append, hseen]
            simpa using hji


/-- First of two entries sharing the empty-string id. -/
def emptyIdEntryA : AlertEntry :=
  { blankEntry with
      id := some []
      title := some "first".data }

/-- Second of two entries sharing the empty-string id. -/
def emptyIdEntryB : AlertEntry :=
  { blankEntry with
      id := some []
      title := some "second".data }

/-- C6 counterexample: an Atom `<id></id>` parses to the empty string, which
is neither null nor missing, yet the dedup loop discards it too (the JS
truthiness test `it?.id` rejects the empty string): merging two feeds that
share the entry id "" yields zero entries for that id, not exactly one. -/
theorem C6_counterexample :
    emptyIdEntryA.id ≠ none ∧ emptyIdEntryA.id = emptyIdEntryB.id ∧
    dedupById [emptyIdEntryA, emptyIdEntryB] = [] := by
  decide

/-- C6 amended: dedup keeps, for each non-empty id, exactly the first
occurrence in merge order (first-seen fields retained), and silently discards
every entry whose id is null, missing, or the empty string. -/
theorem C6_dedup_first_wins :
    (∀ (merged : List AlertEntry) (e : AlertEntry), e ∈ dedupById merged →
      ∃ i, e.id = some i ∧ i ≠ []) ∧
    (∀ (merged : List AlertEntry) (i : List Char) (e : AlertEntry), i ≠ [] →
      merged.find? (fun x => x.id == some i) = some e →
      (dedupById merged).filter (fun x => x.id == some i) = [e]) := by
  constructor
  · intro merged e he
    unfold dedupById at he
    rw [foldl_dedupStep_eq merged [], List.nil_append] at he
    simp only [List.map_nil] at he
    obtain ⟨p, hp, rfl⟩ := List.mem_map.mp he
    have := dedupGo_mem merged [] p hp
    exact ⟨p.1, this.1, this.2.1⟩
  · intro merged i e hi hfind
    unfold dedupById
    rw [foldl_dedupStep_eq merged [], List.nil_append]
    simp only [List.map_nil]
    rw [List.filter_map]
    have hcong : (dedupGo [] merged).filter ((fun x => x.id == some i) ∘ Prod.snd)
        = (dedupGo [] merged).filter (fun p => p.1 == i) := by
      apply List.filter_congr
      intro p hp
      have hmem := dedupGo_mem merged [] p hp
      show (p.2.id == some i) = (p.1 == i)
      rw [hmem.1]
      rfl
    rw [hcong, dedupGo_filter_first merged [] i e hi (by simp) hfind]
    rfl

/-- First of two entries sharing the id x1. -/
def dupEntryA : AlertEntry :=
  { blankEntry with
      id := some "x1".data
      title := some "first".data }

/-- Second of two entries sharing the id x1. -/
def dupEntryB : AlertEntry :=
  { blankEntry with
      id := some "x1".data
      title := some "second".data }

/-- Witness for C6 (amended): two feeds sharing the non-empty id x1 yield
exactly one entry for that id, the first occurrence. -/
theorem C6_dedup_first_wins_witness :
    (dedupById [dupEntryA, dupEntryB]).filter (fun x => x.id == some "x1".data)
      = [dupEntryA] :=
  C6_dedup_first_wins.2 [dupEntryA, dupEntryB] "x1".data dupEntryA (by decide) (by decide)

end Newapp
